import Mathlib

/-!
Shallow embedding of the SketchRoom drawing core
(`src/sketchbook/src/drawing.ts`, the `DrawingSystem` class with
per-source stroke sessions, i.e. the version whose `startStroke`
takes a `sourceId`).

Modelling conventions:
  * 3D coordinates are exact rationals (`ℚ`); the code's `double`
    arithmetic on the concrete inputs of the claims is far from every
    comparison threshold, so exact arithmetic decides the same branches.
  * `THREE.Vector3.distanceTo(p) > c` is embedded as a comparison of the
    squared distance with `c ^ 2` (both sides nonnegative), avoiding
    square roots.
  * Render meshes (`THREE.Mesh` / `Line2`) are opaque handles, modelled
    as `Option ℕ`; a counter `nextHandle` in the system state produces
    fresh handles.  Geometry contents (Catmull-Rom tessellation, tube
    radii) and `scene.add` / `scene.remove` / `dispose` are rendering
    effects with no influence on the stroke data and are not modelled.
  * Audio (`startSound` / `updateSound` / `stopSound`) only touches Web
    Audio nodes and is not modelled.
  * `performance.now()` is an input: operations that read the clock take
    an explicit `now : ℚ` argument.
  * The JS `Map<string, _>` of active sessions is modelled as a function
    `String → Option StrokeState` with pointwise `set` / `delete`.
-/

/-- `THREE.Vector3`: a 3D point with exact rational coordinates. -/
structure Vec3 where
  x : ℚ
  y : ℚ
  z : ℚ
deriving DecidableEq, Repr

/-- Squared Euclidean distance; `a.distanceTo b > c` (with `c ≥ 0`) is
embedded as `dist2 a b > c ^ 2`. -/
def dist2 (a b : Vec3) : ℚ :=
  (a.x - b.x) ^ 2 + (a.y - b.y) ^ 2 + (a.z - b.z) ^ 2

/-- `THREE.Vector3.lerp(v, alpha)`: `this + (v - this) * alpha`,
componentwise. -/
def lerp (a b : Vec3) (alpha : ℚ) : Vec3 :=
  ⟨a.x + (b.x - a.x) * alpha, a.y + (b.y - a.y) * alpha, a.z + (b.z - a.z) * alpha⟩

/-- `interface Stroke` from drawing.ts: point buffer, packed RGB color,
brush size, and the (nullable) render mesh handle. -/
structure Stroke where
  points : List Vec3
  color : ℤ
  size : ℚ
  mesh : Option ℕ
deriving DecidableEq, Repr

/-- A plain `{x, y, z}` record as it appears in `StrokeData.points`
(the wire form; distinct from the `THREE.Vector3` class). -/
structure WirePoint where
  x : ℚ
  y : ℚ
  z : ℚ
deriving DecidableEq, Repr

/-- `interface StrokeData` from drawing.ts: the wire representation of a
stroke (flat point records, color, size). -/
structure StrokeData where
  points : List WirePoint
  color : ℤ
  size : ℚ
deriving DecidableEq, Repr

/-- One entry of the `activeStrokes` map: the in-progress stroke plus the
per-session filter state (`lastPosition`, `smoothedPosition`, `lastTime`). -/
structure StrokeState where
  stroke : Stroke
  lastPosition : Vec3
  smoothedPosition : Vec3
  lastTime : ℚ
deriving DecidableEq, Repr

/-- The mutable fields of `class DrawingSystem` that the stroke logic
reads or writes (scene and audio objects excluded). -/
structure DrawingSystem where
  strokes : List Stroke
  brushColor : ℤ
  brushSize : ℚ
  activeStrokes : String → Option StrokeState
  undoneStrokes : List Stroke
  nextHandle : ℕ

/-- `Map.set`: pointwise update of the active-session map. -/
def mapSet (m : String → Option StrokeState) (k : String) (v : StrokeState) :
    String → Option StrokeState :=
  fun k' => if k' = k then some v else m k'

/-- `Map.delete`: pointwise removal from the active-session map. -/
def mapDelete (m : String → Option StrokeState) (k : String) :
    String → Option StrokeState :=
  fun k' => if k' = k then none else m k'

/-- The `DrawingSystem` constructor state: no strokes, black brush,
3mm brush size, no active sessions, empty redo stack. -/
def initialSystem : DrawingSystem where
  strokes := []
  brushColor := 0
  brushSize := 3 / 1000
  activeStrokes := fun _ => none
  undoneStrokes := []
  nextHandle := 0

/-- `startStroke(sourceId, position)` (color and size left at their
defaults `this.brushColor` / `this.brushSize`, as every caller in the
repository does): builds a stroke seeded with TWO clones of `position`,
registers the session (seeding `lastPosition`, `smoothedPosition` to
`position` and `lastTime` to the clock), and attaches a fresh `Line2`
preview mesh to the stroke. -/
def startStroke (s : DrawingSystem) (sourceId : String) (position : Vec3)
    (now : ℚ) : DrawingSystem :=
  let stroke : Stroke :=
    { points := [position, position]
      color := s.brushColor
      size := s.brushSize
      mesh := some s.nextHandle }
  let state : StrokeState :=
    { stroke := stroke
      lastPosition := position
      smoothedPosition := position
      lastTime := now }
  { s with
      activeStrokes := mapSet s.activeStrokes sourceId state
      nextHandle := s.nextHandle + 1 }

/-- The duplicate filter inside `updateStroke`:
`points.filter((p, i) => i === 0 || p.distanceTo(points[i-1]) > 0.001)`.
Embeds the index-based predicate by walking the list with the previous
element at hand. -/
def filterDup (prev : Vec3) : List Vec3 → List Vec3
  | [] => []
  | p :: rest =>
      if dist2 p prev > (1 / 1000) ^ 2 then p :: filterDup p rest
      else filterDup p rest

/-- `uniquePoints` of `updateStroke`: the head is always kept, later
points only when farther than 1mm from their predecessor in the raw
buffer. -/
def uniquePoints : List Vec3 → List Vec3
  | [] => []
  | p :: rest => p :: filterDup p rest

/-- `updateStroke(sourceId, position)`: no-op without a session or
without a preview mesh; otherwise the low-pass filter
`smoothedPosition.lerp(position, 0.4)` always runs, and the smoothed
point is appended only when it is farther than 1cm from the last buffered
point (the distance gate).  On append the preview geometry is rebuilt
(same mesh handle) and `lastPosition` / `lastTime` advance, except in the
degenerate `uniquePoints.length < 2` early return which keeps them. -/
def updateStroke (s : DrawingSystem) (sourceId : String) (position : Vec3)
    (now : ℚ) : DrawingSystem :=
  match s.activeStrokes sourceId with
  | none => s
  | some state =>
    if state.stroke.mesh = none then s
    else
      match state.stroke.points.getLast? with
      | none => s  -- unreachable: a session's buffer is never empty (JS would throw)
      | some lastPoint =>
        let smoothed := lerp state.smoothedPosition position (2 / 5)
        if dist2 smoothed lastPoint > (1 / 100) ^ 2 then
          let points' := state.stroke.points ++ [smoothed]
          let stroke' := { state.stroke with points := points' }
          if (uniquePoints points').length < 2 then
            -- early return: the push and the filter write already happened
            let state' := { state with stroke := stroke', smoothedPosition := smoothed }
            { s with activeStrokes := mapSet s.activeStrokes sourceId state' }
          else
            let state' : StrokeState :=
              { stroke := stroke'
                lastPosition := position
                smoothedPosition := smoothed
                lastTime := now }
            { s with activeStrokes := mapSet s.activeStrokes sourceId state' }
        else
          -- sub-threshold motion: only the filter state moved
          let state' := { state with smoothedPosition := smoothed }
          { s with activeStrokes := mapSet s.activeStrokes sourceId state' }

/-- `Vector3 → {x, y, z}` as written in `endStroke`:
`points.map(p => ({x: p.x, y: p.y, z: p.z}))`. -/
def encodePoint (p : Vec3) : WirePoint := ⟨p.x, p.y, p.z⟩

/-- `{x, y, z} → Vector3` as written in `drawRemoteStroke`:
`data.points.map(p => new THREE.Vector3(p.x, p.y, p.z))`. -/
def decodePoint (p : WirePoint) : Vec3 := ⟨p.x, p.y, p.z⟩

/-- The Sync Codec's encode direction: `endStroke`'s construction of
`StrokeData` from a stroke. -/
def encodeStroke (st : Stroke) : StrokeData :=
  { points := st.points.map encodePoint
    color := st.color
    size := st.size }

/-- The Sync Codec's decode direction: `drawRemoteStroke`'s recovery of
the point sequence from the wire form. -/
def decodePoints (d : StrokeData) : List Vec3 :=
  d.points.map decodePoint

/-- `updateStrokeMesh(stroke)` (private): skipped below 2 points,
otherwise builds a fresh tube mesh and stores its handle on the stroke.
Returns the updated stroke and next-handle counter. -/
def updateStrokeMesh (stroke : Stroke) (nextHandle : ℕ) : Stroke × ℕ :=
  if stroke.points.length < 2 then (stroke, nextHandle)
  else ({ stroke with mesh := some nextHandle }, nextHandle + 1)

/-- `endStroke(sourceId)`: `null` without a session; otherwise removes
the preview mesh, builds the final mesh via `updateStrokeMesh`, pushes
the stroke onto `strokes`, clears `undoneStrokes`, exports the
`StrokeData`, and deletes the session.  There is no minimum-point check
on this path. -/
def endStroke (s : DrawingSystem) (sourceId : String) :
    Option StrokeData × DrawingSystem :=
  match s.activeStrokes sourceId with
  | none => (none, s)
  | some state =>
    let (stroke', nh) := updateStrokeMesh state.stroke s.nextHandle
    let data := encodeStroke stroke'
    (some data,
      { s with
          strokes := s.strokes ++ [stroke']
          undoneStrokes := []
          activeStrokes := mapDelete s.activeStrokes sourceId
          nextHandle := nh })

/-- `drawRemoteStroke(data)`: decodes the wire points, drops the message
when fewer than 2 points, otherwise builds a mesh and pushes the stroke
onto `strokes`.  `undoneStrokes` is NOT touched on this path. -/
def drawRemoteStroke (s : DrawingSystem) (data : StrokeData) : DrawingSystem :=
  let points := decodePoints data
  if points.length < 2 then s
  else
    { s with
        strokes := s.strokes ++
          [{ points := points
             color := data.color
             size := data.size
             mesh := some s.nextHandle }]
        nextHandle := s.nextHandle + 1 }

/-- `undo()`: pops the last committed stroke; it is saved onto
`undoneStrokes` only when its mesh is non-null. -/
def undo (s : DrawingSystem) : DrawingSystem :=
  match s.strokes.getLast? with
  | none => s
  | some stroke =>
    if stroke.mesh.isSome then
      { s with
          strokes := s.strokes.dropLast
          undoneStrokes := s.undoneStrokes ++ [stroke] }
    else
      { s with strokes := s.strokes.dropLast }

/-- `redo()`: pops the last undone stroke; it is restored to `strokes`
only when its mesh is non-null. -/
def redo (s : DrawingSystem) : DrawingSystem :=
  match s.undoneStrokes.getLast? with
  | none => s
  | some stroke =>
    if stroke.mesh.isSome then
      { s with
          undoneStrokes := s.undoneStrokes.dropLast
          strokes := s.strokes ++ [stroke] }
    else
      { s with undoneStrokes := s.undoneStrokes.dropLast }

/-- `deleteStroke(mesh)` (the erase operation): linear scan of
`strokes` for the stroke owning `mesh`; when found the stroke is
removed and `undoneStrokes` is cleared; otherwise nothing happens. -/
def deleteStroke (s : DrawingSystem) (mesh : ℕ) : DrawingSystem :=
  match s.strokes.findIdx? (fun st => st.mesh = some mesh) with
  | none => s
  | some i =>
    { s with
        strokes := s.strokes.eraseIdx i
        undoneStrokes := [] }

/-- `setColor(color)`. -/
def setColor (s : DrawingSystem) (color : ℤ) : DrawingSystem :=
  { s with brushColor := color }

/-- `setSize(size)`. -/
def setSize (s : DrawingSystem) (size : ℚ) : DrawingSystem :=
  { s with brushSize := size }

/-- `clear()`: disposes every committed stroke and empties both stacks
(active sessions are untouched in the source). -/
def clearSystem (s : DrawingSystem) : DrawingSystem :=
  { s with strokes := [], undoneStrokes := [] }

/-- The states of a `DrawingSystem` that the public API can produce from
the constructor state: closure of `initialSystem` under every public
operation of the class. -/
inductive Reachable : DrawingSystem → Prop where
  | init : Reachable initialSystem
  | start (s : DrawingSystem) (k : String) (p : Vec3) (t : ℚ) :
      Reachable s → Reachable (startStroke s k p t)
  | update (s : DrawingSystem) (k : String) (p : Vec3) (t : ℚ) :
      Reachable s → Reachable (updateStroke s k p t)
  | finish (s : DrawingSystem) (k : String) :
      Reachable s → Reachable (endStroke s k).2
  | remote (s : DrawingSystem) (d : StrokeData) :
      Reachable s → Reachable (drawRemoteStroke s d)
  | undoStep (s : DrawingSystem) : Reachable s → Reachable (undo s)
  | redoStep (s : DrawingSystem) : Reachable s → Reachable (redo s)
  | erase (s : DrawingSystem) (m : ℕ) : Reachable s → Reachable (deleteStroke s m)
  | color (s : DrawingSystem) (c : ℤ) : Reachable s → Reachable (setColor s c)
  | size (s : DrawingSystem) (z : ℚ) : Reachable s → Reachable (setSize s z)
  | clearAll (s : DrawingSystem) : Reachable s → Reachable (clearSystem s)

/-- The resource/shape invariant the API maintains: every committed or
undone stroke owns a (non-null) mesh, and every active session buffer
holds at least the two seeded points. -/
def SysInv (s : DrawingSystem) : Prop :=
  (∀ st ∈ s.strokes, st.mesh.isSome = true) ∧
  (∀ st ∈ s.undoneStrokes, st.mesh.isSome = true) ∧
  (∀ k ss, s.activeStrokes k = some ss → 2 ≤ ss.stroke.points.length)

/-! ## Map and list helper lemmas -/

theorem mapSet_self (m : String → Option StrokeState) (k : String) (v : StrokeState) :
    mapSet m k v k = some v := by
  simp [mapSet]

theorem mapSet_ne (m : String → Option StrokeState) (k k' : String) (v : StrokeState)
    (h : k' ≠ k) : mapSet m k v k' = m k' := by
  simp [mapSet, h]

theorem mapDelete_ne (m : String → Option StrokeState) (k k' : String)
    (h : k' ≠ k) : mapDelete m k k' = m k' := by
  simp [mapDelete, h]

theorem dropLast_append_of_getLast? {α : Type} {l : List α} {a : α}
    (h : l.getLast? = some a) : l.dropLast ++ [a] = l := by
  have hne : l ≠ [] := by rintro rfl; simp at h
  have h2 : l.getLast hne = a := by
    have h3 := List.getLast?_eq_getLast l hne
    rw [h3] at h
    exact Option.some.inj h
  rw [← h2]
  exact List.dropLast_append_getLast hne

theorem mem_of_getLast?_eq {α : Type} {l : List α} {a : α}
    (h : l.getLast? = some a) : a ∈ l := by
  rw [← dropLast_append_of_getLast? h]
  simp


/-! ## Frame lemmas for the per-operation state changes -/

theorem updateStroke_strokes (s : DrawingSystem) (k : String) (p : Vec3) (t : ℚ) :
    (updateStroke s k p t).strokes = s.strokes := by
  unfold updateStroke
  repeat first | rfl | split | dsimp only

theorem updateStroke_undone (s : DrawingSystem) (k : String) (p : Vec3) (t : ℚ) :
    (updateStroke s k p t).undoneStrokes = s.undoneStrokes := by
  unfold updateStroke
  repeat first | rfl | split | dsimp only

theorem startStroke_session_ne (s : DrawingSystem) (k k' : String) (p : Vec3) (t : ℚ)
    (h : k' ≠ k) :
    (startStroke s k p t).activeStrokes k' = s.activeStrokes k' :=
  mapSet_ne _ _ _ _ h

theorem updateStroke_session_ne (s : DrawingSystem) (k k' : String) (p : Vec3) (t : ℚ)
    (h : k' ≠ k) :
    (updateStroke s k p t).activeStrokes k' = s.activeStrokes k' := by
  unfold updateStroke
  repeat first | rfl | exact mapSet_ne _ _ _ _ h | split | dsimp only

theorem endStroke_session_ne (s : DrawingSystem) (k k' : String)
    (h : k' ≠ k) :
    ((endStroke s k).2).activeStrokes k' = s.activeStrokes k' := by
  unfold endStroke
  repeat first | rfl | exact mapDelete_ne _ _ _ h | split | dsimp only

/-- Branch analysis for `updateStroke`: the call either leaves the whole
system unchanged, or only rewrites the session of `k` to one whose point
buffer kept its length or grew by one. -/
theorem updateStroke_char (s : DrawingSystem) (k : String) (p : Vec3) (t : ℚ) :
    updateStroke s k p t = s ∨
    ∃ state state', s.activeStrokes k = some state ∧
      (state'.stroke.points.length = state.stroke.points.length ∨
       state'.stroke.points.length = state.stroke.points.length + 1) ∧
      updateStroke s k p t = { s with activeStrokes := mapSet s.activeStrokes k state' } := by
  unfold updateStroke
  split
  · exact Or.inl rfl
  case h_2 state heq =>
    split
    · exact Or.inl rfl
    · split
      · exact Or.inl rfl
      case h_2 lastPoint hl =>
        dsimp only
        split
        · split
          · refine Or.inr ⟨state, _, heq, ?_, rfl⟩
            exact Or.inr (by simp)
          · refine Or.inr ⟨state, _, heq, ?_, rfl⟩
            exact Or.inr (by simp)
        · refine Or.inr ⟨state, _, heq, ?_, rfl⟩
          exact Or.inl rfl

/-! ## The API maintains `SysInv` -/

theorem sysInv_init : SysInv initialSystem := by
  refine ⟨?_, ?_, ?_⟩ <;> intro a b <;> simp [initialSystem] at b ⊢

theorem sysInv_start (s : DrawingSystem) (k : String) (p : Vec3) (t : ℚ)
    (h : SysInv s) : SysInv (startStroke s k p t) := by
  obtain ⟨h1, h2, h3⟩ := h
  refine ⟨h1, h2, ?_⟩
  intro k' ss hss
  by_cases hk : k' = k
  · subst hk
    rw [show (startStroke s k' p t).activeStrokes k' = _ from mapSet_self _ _ _] at hss
    cases hss
    simp [startStroke]
  · rw [startStroke_session_ne s k k' p t hk] at hss
    exact h3 k' ss hss

theorem sysInv_update (s : DrawingSystem) (k : String) (p : Vec3) (t : ℚ)
    (h : SysInv s) : SysInv (updateStroke s k p t) := by
  obtain ⟨h1, h2, h3⟩ := h
  rcases updateStroke_char s k p t with he | ⟨state, state', hget, hlen, he⟩
  · rw [he]; exact ⟨h1, h2, h3⟩
  · rw [he]
    refine ⟨h1, h2, ?_⟩
    intro k' ss hss
    dsimp only at hss
    by_cases hk : k' = k
    · subst hk
      rw [mapSet_self] at hss
      obtain rfl := Option.some.inj hss
      have hbase := h3 k' state hget
      rcases hlen with hl | hl <;> omega
    · rw [mapSet_ne _ _ _ _ hk] at hss
      exact h3 k' ss hss

theorem sysInv_end (s : DrawingSystem) (k : String)
    (h : SysInv s) : SysInv (endStroke s k).2 := by
  obtain ⟨h1, h2, h3⟩ := h
  unfold endStroke
  cases hs : s.activeStrokes k with
  | none => exact ⟨h1, h2, h3⟩
  | some state =>
    dsimp only
    have hlen := h3 k state hs
    refine ⟨?_, ?_, ?_⟩
    · intro st hmem
      rw [List.mem_append] at hmem
      rcases hmem with hmem | hmem
      · exact h1 st hmem
      · rw [List.mem_singleton] at hmem
        subst hmem
        unfold updateStrokeMesh
        rw [if_neg (by omega)]
        rfl
    · intro st hmem
      simp at hmem
    · intro k' ss hss
      by_cases hk : k' = k
      · subst hk
        simp [mapDelete] at hss
      · dsimp only at hss
        rw [mapDelete_ne _ _ _ hk] at hss
        exact h3 k' ss hss

theorem sysInv_remote (s : DrawingSystem) (d : StrokeData)
    (h : SysInv s) : SysInv (drawRemoteStroke s d) := by
  obtain ⟨h1, h2, h3⟩ := h
  unfold drawRemoteStroke
  dsimp only
  split
  · exact ⟨h1, h2, h3⟩
  · refine ⟨?_, h2, h3⟩
    intro st hmem
    rw [List.mem_append] at hmem
    rcases hmem with hmem | hmem
    · exact h1 st hmem
    · rw [List.mem_singleton] at hmem
      subst hmem
      rfl

theorem sysInv_undo (s : DrawingSystem) (h : SysInv s) : SysInv (undo s) := by
  obtain ⟨h1, h2, h3⟩ := h
  unfold undo
  cases hs : s.strokes.getLast? with
  | none => exact ⟨h1, h2, h3⟩
  | some stroke =>
    dsimp only
    have hmemlast : stroke ∈ s.strokes := mem_of_getLast?_eq hs
    split
    · refine ⟨?_, ?_, h3⟩
      · intro st hmem
        exact h1 st (List.dropLast_sublist s.strokes |>.mem hmem)
      · intro st hmem
        rw [List.mem_append] at hmem
        rcases hmem with hmem | hmem
        · exact h2 st hmem
        · rw [List.mem_singleton] at hmem
          subst hmem
          exact h1 st hmemlast
    · refine ⟨?_, h2, h3⟩
      intro st hmem
      exact h1 st (List.dropLast_sublist s.strokes |>.mem hmem)

theorem sysInv_redo (s : DrawingSystem) (h : SysInv s) : SysInv (redo s) := by
  obtain ⟨h1, h2, h3⟩ := h
  unfold redo
  cases hs : s.undoneStrokes.getLast? with
  | none => exact ⟨h1, h2, h3⟩
  | some stroke =>
    dsimp only
    have hmemlast : stroke ∈ s.undoneStrokes := mem_of_getLast?_eq hs
    split
    · refine ⟨?_, ?_, h3⟩
      · intro st hmem
        rw [List.mem_append] at hmem
        rcases hmem with hmem | hmem
        · exact h1 st hmem
        · rw [List.mem_singleton] at hmem
          subst hmem
          exact h2 st hmemlast
      · intro st hmem
        exact h2 st (List.dropLast_sublist s.undoneStrokes |>.mem hmem)
    · refine ⟨h1, ?_, h3⟩
      intro st hmem
      exact h2 st (List.dropLast_sublist s.undoneStrokes |>.mem hmem)

theorem sysInv_erase (s : DrawingSystem) (m : ℕ) (h : SysInv s) :
    SysInv (deleteStroke s m) := by
  obtain ⟨h1, h2, h3⟩ := h
  unfold deleteStroke
  split
  · exact ⟨h1, h2, h3⟩
  case h_2 i hi =>
    refine ⟨?_, ?_, h3⟩
    · intro st hmem
      exact h1 st (List.eraseIdx_sublist s.strokes i |>.mem hmem)
    · intro st hmem
      simp at hmem

theorem sysInv_setColor (s : DrawingSystem) (c : ℤ) (h : SysInv s) :
    SysInv (setColor s c) := h

theorem sysInv_setSize (s : DrawingSystem) (z : ℚ) (h : SysInv s) :
    SysInv (setSize s z) := h

theorem sysInv_clear (s : DrawingSystem) (h : SysInv s) :
    SysInv (clearSystem s) := by
  obtain ⟨h1, h2, h3⟩ := h
  refine ⟨?_, ?_, h3⟩ <;> intro st hmem <;> simp [clearSystem] at hmem

theorem reachable_sysInv (s : DrawingSystem) (h : Reachable s) : SysInv s := by
  induction h with
  | init => exact sysInv_init
  | start s k p t _ ih => exact sysInv_start s k p t ih
  | update s k p t _ ih => exact sysInv_update s k p t ih
  | finish s k _ ih => exact sysInv_end s k ih
  | remote s d _ ih => exact sysInv_remote s d ih
  | undoStep s _ ih => exact sysInv_undo s ih
  | redoStep s _ ih => exact sysInv_redo s ih
  | erase s m _ ih => exact sysInv_erase s m ih
  | color s c _ ih => exact sysInv_setColor s c ih
  | size s z _ ih => exact sysInv_setSize s z ih
  | clearAll s _ ih => exact sysInv_clear s ih

/-! ## Claims -/

/-- C1 (counterexample): on a fresh system, `start("hand-left", origin)`
followed immediately by `end("hand-left")` (no qualifying update) does
NOT return null and does NOT leave the committed list unchanged: the
buffer was seeded with two points, `endStroke` has no minimum-point
check, so the degenerate stroke is committed and exported. -/
theorem end_after_start_only_commits :
    (endStroke (startStroke initialSystem "hand-left" ⟨0, 0, 0⟩ 0) "hand-left").1 ≠ none ∧
    (endStroke (startStroke initialSystem "hand-left" ⟨0, 0, 0⟩ 0) "hand-left").2.strokes ≠
      initialSystem.strokes := by
  decide

/-- C1 (amended): `end(k)` on a session that received only `start(k, p)`
returns a wire stroke holding two copies of `p`, appends the degenerate
stroke to the committed list, and clears the redo stack. -/
theorem end_after_start_only (s : DrawingSystem) (k : String) (p : Vec3) (t : ℚ) :
    (endStroke (startStroke s k p t) k).1 =
      some { points := [encodePoint p, encodePoint p], color := s.brushColor,
             size := s.brushSize } ∧
    (endStroke (startStroke s k p t) k).2.strokes =
      s.strokes ++ [{ points := [p, p], color := s.brushColor, size := s.brushSize,
                      mesh := some (s.nextHandle + 1) }] ∧
    (endStroke (startStroke s k p t) k).2.undoneStrokes = [] := by
  unfold endStroke startStroke
  simp [mapSet, updateStrokeMesh, encodeStroke, encodePoint]

/-- Step lemma: `updateStroke` without a session is the identity. -/
theorem updateStroke_noSession (s : DrawingSystem) (k : String) (p : Vec3) (t : ℚ)
    (hs : s.activeStrokes k = none) : updateStroke s k p t = s := by
  unfold updateStroke
  rw [hs]

/-- Step lemma: a sub-threshold `updateStroke` only advances the
low-pass filter state of the session. -/
theorem updateStroke_gated (s : DrawingSystem) (k : String) (p : Vec3) (t : ℚ)
    (state : StrokeState) (lastPoint : Vec3)
    (hs : s.activeStrokes k = some state)
    (hm : ¬state.stroke.mesh = none)
    (hl : state.stroke.points.getLast? = some lastPoint)
    (hd : ¬dist2 (lerp state.smoothedPosition p (2 / 5)) lastPoint > (1 / 100) ^ 2) :
    updateStroke s k p t =
      { s with activeStrokes := (mapSet s.activeStrokes k
          { state with smoothedPosition := lerp state.smoothedPosition p (2 / 5) }) } := by
  unfold updateStroke
  rw [hs]
  dsimp only
  rw [if_neg hm, hl]
  dsimp only
  rw [if_neg hd]

/-- Step lemma: an above-threshold `updateStroke` appends the smoothed
point and advances the whole session state. -/
theorem updateStroke_append (s : DrawingSystem) (k : String) (p : Vec3) (t : ℚ)
    (state : StrokeState) (lastPoint : Vec3)
    (hs : s.activeStrokes k = some state)
    (hm : ¬state.stroke.mesh = none)
    (hl : state.stroke.points.getLast? = some lastPoint)
    (hd : dist2 (lerp state.smoothedPosition p (2 / 5)) lastPoint > (1 / 100) ^ 2)
    (hu : ¬(uniquePoints (state.stroke.points ++
        [lerp state.smoothedPosition p (2 / 5)])).length < 2) :
    updateStroke s k p t =
      { s with activeStrokes := (mapSet s.activeStrokes k
          { stroke := { state.stroke with points := state.stroke.points ++
                [lerp state.smoothedPosition p (2 / 5)] }
            lastPosition := p
            smoothedPosition := lerp state.smoothedPosition p (2 / 5)
            lastTime := t }) } := by
  unfold updateStroke
  rw [hs]
  dsimp only
  rw [if_neg hm, hl]
  dsimp only
  rw [if_pos hd, if_neg hu]

/-- Step lemma: `endStroke` without a session returns null and changes
nothing. -/
theorem endStroke_noSession (s : DrawingSystem) (k : String)
    (hs : s.activeStrokes k = none) : endStroke s k = (none, s) := by
  unfold endStroke
  rw [hs]

/-- Step lemma: `endStroke` with a session builds the final mesh,
commits the stroke, clears the redo stack, drops the session and
exports the wire form. -/
theorem endStroke_withSession (s : DrawingSystem) (k : String) (state : StrokeState)
    (hs : s.activeStrokes k = some state) :
    endStroke s k =
      (some (encodeStroke (updateStrokeMesh state.stroke s.nextHandle).1),
       { s with
           strokes := s.strokes ++ [(updateStrokeMesh state.stroke s.nextHandle).1]
           undoneStrokes := []
           activeStrokes := mapDelete s.activeStrokes k
           nextHandle := (updateStrokeMesh state.stroke s.nextHandle).2 }) := by
  unfold endStroke
  rw [hs]

/-- Arithmetic evaluation of the first scenario lerp:
`lerp (0,0,0) (0,0,0.02) 0.4 = (0,0,0.008)`. -/
theorem lerp_eval1 : lerp ⟨0, 0, 0⟩ ⟨0, 0, 1/50⟩ (2/5) = (⟨0, 0, 1/125⟩ : Vec3) := by
  simp only [lerp]
  norm_num [Vec3.mk.injEq]

/-- Arithmetic evaluation of the second scenario lerp:
`lerp (0,0,0.008) (0,0,0.021) 0.4 = (0,0,0.0132)`. -/
theorem lerp_eval2 : lerp ⟨0, 0, 1/125⟩ ⟨0, 0, 21/1000⟩ (2/5) = (⟨0, 0, 33/2500⟩ : Vec3) := by
  simp only [lerp]
  norm_num [Vec3.mk.injEq]

/-- C2 (counterexample): in the scenario start("hand-right", (0,0,0));
update (0,0,0.02); update (0,0,0.021); end(), the returned wire stroke
has THREE points, not the claimed two: the low-pass filter runs before
the distance gate, so the first update only reaches (0,0,0.008) (gated
out, contrary to the claim) while the second reaches (0,0,0.0132)
(appended), on top of the two seeded copies of the origin. -/
theorem scenario_not_two_points :
    ((endStroke (updateStroke (updateStroke
        (startStroke initialSystem "hand-right" ⟨0, 0, 0⟩ 0)
        "hand-right" ⟨0, 0, 1/50⟩ 1)
        "hand-right" ⟨0, 0, 21/1000⟩ 2) "hand-right").1.map
      (fun d => d.points.length)) = some 3 ∧ (3 : ℕ) ≠ 2 := by
  refine ⟨?_, by decide⟩
  rw [updateStroke_gated (startStroke initialSystem "hand-right" ⟨0, 0, 0⟩ 0)
    "hand-right" ⟨0, 0, 1/50⟩ 1
    ⟨⟨[⟨0, 0, 0⟩, ⟨0, 0, 0⟩], 0, 3/1000, some 0⟩, ⟨0, 0, 0⟩, ⟨0, 0, 0⟩, 0⟩
    ⟨0, 0, 0⟩ rfl (by simp) rfl (by norm_num [lerp, dist2])]
  dsimp only
  rw [lerp_eval1]
  rw [updateStroke_append _ "hand-right" ⟨0, 0, 21/1000⟩ 2
    ⟨⟨[⟨0, 0, 0⟩, ⟨0, 0, 0⟩], 0, 3/1000, some 0⟩, ⟨0, 0, 0⟩, ⟨0, 0, 1/125⟩, 0⟩
    ⟨0, 0, 0⟩ rfl (by simp) rfl (by norm_num [lerp, dist2])
    (by norm_num [lerp, uniquePoints, filterDup, dist2])]
  dsimp only
  rw [lerp_eval2]
  rw [endStroke_withSession _ "hand-right"
    ⟨⟨[⟨0, 0, 0⟩, ⟨0, 0, 0⟩, ⟨0, 0, 33/2500⟩], 0, 3/1000, some 0⟩,
     ⟨0, 0, 21/1000⟩, ⟨0, 0, 33/2500⟩, 2⟩ rfl]
  norm_num [updateStrokeMesh, encodeStroke, encodePoint]

/-- C2 (amended): the scenario returns a wire stroke with exactly three
points (0,0,0), (0,0,0), (0,0,0.0132): the seed point is stored twice,
the first update is absorbed by the low-pass filter (the smoothed
position moves only 8mm, below the 1cm gate), and the second update
appends the smoothed position (0,0,0.0132). -/
theorem scenario_three_points :
    (endStroke (updateStroke (updateStroke
        (startStroke initialSystem "hand-right" ⟨0, 0, 0⟩ 0)
        "hand-right" ⟨0, 0, 1/50⟩ 1)
        "hand-right" ⟨0, 0, 21/1000⟩ 2) "hand-right").1 =
      some { points := [⟨0, 0, 0⟩, ⟨0, 0, 0⟩, ⟨0, 0, 33/2500⟩],
             color := 0, size := 3/1000 } := by
  rw [updateStroke_gated (startStroke initialSystem "hand-right" ⟨0, 0, 0⟩ 0)
    "hand-right" ⟨0, 0, 1/50⟩ 1
    ⟨⟨[⟨0, 0, 0⟩, ⟨0, 0, 0⟩], 0, 3/1000, some 0⟩, ⟨0, 0, 0⟩, ⟨0, 0, 0⟩, 0⟩
    ⟨0, 0, 0⟩ rfl (by simp) rfl (by norm_num [lerp, dist2])]
  dsimp only
  rw [lerp_eval1]
  rw [updateStroke_append _ "hand-right" ⟨0, 0, 21/1000⟩ 2
    ⟨⟨[⟨0, 0, 0⟩, ⟨0, 0, 0⟩], 0, 3/1000, some 0⟩, ⟨0, 0, 0⟩, ⟨0, 0, 1/125⟩, 0⟩
    ⟨0, 0, 0⟩ rfl (by simp) rfl (by norm_num [lerp, dist2])
    (by norm_num [lerp, uniquePoints, filterDup, dist2])]
  dsimp only
  rw [lerp_eval2]
  rw [endStroke_withSession _ "hand-right"
    ⟨⟨[⟨0, 0, 0⟩, ⟨0, 0, 0⟩, ⟨0, 0, 33/2500⟩], 0, 3/1000, some 0⟩,
     ⟨0, 0, 21/1000⟩, ⟨0, 0, 33/2500⟩, 2⟩ rfl]
  norm_num [updateStrokeMesh, encodeStroke, encodePoint]

/-- C3 (counterexample): a remote commit does NOT clear the redo stack.
Commit a remote stroke, undo it (redo stack now non-empty), then commit
a second remote stroke: the redo stack is still non-empty and a
subsequent `redo()` changes the committed list, contradicting the claim
that every validated commit clears the redo stack. -/
theorem remote_commit_keeps_redo :
    (let s := drawRemoteStroke (undo (drawRemoteStroke initialSystem
        { points := [⟨0, 0, 0⟩, ⟨1, 0, 0⟩], color := 5, size := 1 }))
        { points := [⟨0, 1, 0⟩, ⟨1, 1, 0⟩], color := 7, size := 2 }
     s.undoneStrokes ≠ [] ∧ (redo s).strokes ≠ s.strokes) := by
  decide

/-- C3 (amended): a local commit through `endStroke` appends the stroke
and clears the redo stack; a remote commit through `drawRemoteStroke`
(≥ 2 points) appends the stroke but leaves the redo stack untouched, so
a pending redo stays available. -/
theorem commit_redo_stack_paths (s : DrawingSystem) (k : String)
    (state : StrokeState) (d : StrokeData)
    (hk : s.activeStrokes k = some state) (hd : 2 ≤ d.points.length) :
    (endStroke s k).2.undoneStrokes = [] ∧
    (endStroke s k).2.strokes =
      s.strokes ++ [(updateStrokeMesh state.stroke s.nextHandle).1] ∧
    (drawRemoteStroke s d).strokes =
      s.strokes ++ [{ points := decodePoints d, color := d.color, size := d.size,
                      mesh := some s.nextHandle }] ∧
    (drawRemoteStroke s d).undoneStrokes = s.undoneStrokes := by
  have hlen : ¬(decodePoints d).length < 2 := by
    simp only [decodePoints, List.length_map]
    omega
  rw [endStroke_withSession s k state hk]
  unfold drawRemoteStroke
  dsimp only
  rw [if_neg hlen]
  exact ⟨rfl, rfl, rfl, rfl⟩

/-- Witness for `commit_redo_stack_paths` at a concrete session and a
concrete two-point wire stroke. -/
theorem commit_redo_stack_paths_witness :
    (endStroke (startStroke initialSystem "hand-left" ⟨0, 0, 0⟩ 0) "hand-left").2.undoneStrokes = [] ∧
    (endStroke (startStroke initialSystem "hand-left" ⟨0, 0, 0⟩ 0) "hand-left").2.strokes =
      (startStroke initialSystem "hand-left" ⟨0, 0, 0⟩ 0).strokes ++
        [(updateStrokeMesh
            (⟨⟨[⟨0, 0, 0⟩, ⟨0, 0, 0⟩], 0, 3/1000, some 0⟩,
              ⟨0, 0, 0⟩, ⟨0, 0, 0⟩, 0⟩ : StrokeState).stroke
            (startStroke initialSystem "hand-left" ⟨0, 0, 0⟩ 0).nextHandle).1] ∧
    (drawRemoteStroke (startStroke initialSystem "hand-left" ⟨0, 0, 0⟩ 0)
        { points := [⟨0, 0, 0⟩, ⟨1, 0, 0⟩], color := 5, size := 1 }).strokes =
      (startStroke initialSystem "hand-left" ⟨0, 0, 0⟩ 0).strokes ++
        [{ points := decodePoints { points := [⟨0, 0, 0⟩, ⟨1, 0, 0⟩], color := 5, size := 1 },
           color := 5, size := 1,
           mesh := some (startStroke initialSystem "hand-left" ⟨0, 0, 0⟩ 0).nextHandle }] ∧
    (drawRemoteStroke (startStroke initialSystem "hand-left" ⟨0, 0, 0⟩ 0)
        { points := [⟨0, 0, 0⟩, ⟨1, 0, 0⟩], color := 5, size := 1 }).undoneStrokes =
      (startStroke initialSystem "hand-left" ⟨0, 0, 0⟩ 0).undoneStrokes :=
  commit_redo_stack_paths (startStroke initialSystem "hand-left" ⟨0, 0, 0⟩ 0)
    "hand-left"
    ⟨⟨[⟨0, 0, 0⟩, ⟨0, 0, 0⟩], 0, 3/1000, some 0⟩, ⟨0, 0, 0⟩, ⟨0, 0, 0⟩, 0⟩
    { points := [⟨0, 0, 0⟩, ⟨1, 0, 0⟩], color := 5, size := 1 }
    rfl (by decide)

/-- C4: on any API-reachable store with a non-empty committed list,
`undo()` immediately followed by `redo()` restores both the committed
list (same stroke, same last position) and the redo stack. -/
theorem undo_redo_restores (s : DrawingSystem) (st : Stroke)
    (hr : Reachable s) (h : s.strokes.getLast? = some st) :
    (redo (undo s)).strokes = s.strokes ∧
    (redo (undo s)).undoneStrokes = s.undoneStrokes := by
  have hinv := reachable_sysInv s hr
  have hm : st.mesh.isSome = true := hinv.1 st (mem_of_getLast?_eq h)
  unfold undo
  rw [h]
  dsimp only
  rw [if_pos hm]
  unfold redo
  dsimp only
  rw [List.getLast?_concat]
  dsimp only
  rw [if_pos hm]
  refine ⟨?_, ?_⟩
  · exact dropLast_append_of_getLast? h
  · exact List.dropLast_concat

/-- Witness for `undo_redo_restores`: a store reachable by one remote
commit, with one committed stroke. -/
theorem undo_redo_restores_witness :
    (redo (undo (drawRemoteStroke initialSystem
        { points := [⟨0, 0, 0⟩, ⟨1, 0, 0⟩], color := 5, size := 1 }))).strokes =
      (drawRemoteStroke initialSystem
        { points := [⟨0, 0, 0⟩, ⟨1, 0, 0⟩], color := 5, size := 1 }).strokes ∧
    (redo (undo (drawRemoteStroke initialSystem
        { points := [⟨0, 0, 0⟩, ⟨1, 0, 0⟩], color := 5, size := 1 }))).undoneStrokes =
      (drawRemoteStroke initialSystem
        { points := [⟨0, 0, 0⟩, ⟨1, 0, 0⟩], color := 5, size := 1 }).undoneStrokes :=
  undo_redo_restores
    (drawRemoteStroke initialSystem
      { points := [⟨0, 0, 0⟩, ⟨1, 0, 0⟩], color := 5, size := 1 })
    ⟨[⟨0, 0, 0⟩, ⟨1, 0, 0⟩], 5, 1, some 0⟩
    (Reachable.remote initialSystem
      { points := [⟨0, 0, 0⟩, ⟨1, 0, 0⟩], color := 5, size := 1 } Reachable.init)
    rfl

/-- C5: the Sync Codec round-trip: decoding the encoded wire form of any
stroke reproduces its point sequence exactly, and the wire form carries
`color` and `size` verbatim. -/
theorem wire_roundtrip (st : Stroke) :
    decodePoints (encodeStroke st) = st.points ∧
    (encodeStroke st).color = st.color ∧
    (encodeStroke st).size = st.size := by
  refine ⟨?_, rfl, rfl⟩
  simp only [decodePoints, encodeStroke, List.map_map]
  have hcomp : decodePoint ∘ encodePoint = id := by
    funext p
    cases p
    rfl
  rw [hcomp, List.map_id]

/-- C6: erasing a mesh handle owned by no committed stroke is a no-op:
the whole system state (committed list, redo stack, sessions) is
unchanged. -/
theorem erase_absent_noop (s : DrawingSystem) (h : ℕ)
    (hab : ∀ st ∈ s.strokes, st.mesh ≠ some h) :
    deleteStroke s h = s := by
  have hnone : s.strokes.findIdx? (fun st => st.mesh = some h) = none := by
    rw [List.findIdx?_eq_none_iff]
    intro st hmem
    simpa using hab st hmem
  unfold deleteStroke
  rw [hnone]

/-- Witness for `erase_absent_noop`: erasing an unknown handle on a
store holding one stroke that owns handle 0. -/
theorem erase_absent_noop_witness :
    deleteStroke (drawRemoteStroke initialSystem
      { points := [⟨0, 0, 0⟩, ⟨1, 0, 0⟩], color := 5, size := 1 }) 5 =
    drawRemoteStroke initialSystem
      { points := [⟨0, 0, 0⟩, ⟨1, 0, 0⟩], color := 5, size := 1 } :=
  erase_absent_noop
    (drawRemoteStroke initialSystem
      { points := [⟨0, 0, 0⟩, ⟨1, 0, 0⟩], color := 5, size := 1 })
    5 (by decide)

/-- C7: a wire stroke with fewer than 2 points fed to the remote-stroke
path is dropped: the system is returned unchanged (no commit, no crash,
no other state change). -/
theorem remote_degenerate_dropped (s : DrawingSystem) (d : StrokeData)
    (hd : d.points.length < 2) :
    drawRemoteStroke s d = s := by
  have hlen : (decodePoints d).length < 2 := by
    simpa [decodePoints] using hd
  unfold drawRemoteStroke
  dsimp only
  rw [if_pos hlen]

/-- Witness for `remote_degenerate_dropped`: a one-point wire stroke on
the fresh system. -/
theorem remote_degenerate_dropped_witness :
    drawRemoteStroke initialSystem
      { points := [⟨0, 0, 0⟩], color := 5, size := 1 } = initialSystem :=
  remote_degenerate_dropped initialSystem
    { points := [⟨0, 0, 0⟩], color := 5, size := 1 } (by decide)

/-- C8: sessions with distinct source keys are independent: `start`,
`update` and `end` on key `k1` leave the entire session entry of any
other key `k2` (stroke buffer, last position, smoothed filter state,
timestamp) unchanged. -/
theorem sessions_independent (s : DrawingSystem) (k1 k2 : String) (p : Vec3) (t : ℚ)
    (h : k1 ≠ k2) :
    (startStroke s k1 p t).activeStrokes k2 = s.activeStrokes k2 ∧
    (updateStroke s k1 p t).activeStrokes k2 = s.activeStrokes k2 ∧
    ((endStroke s k1).2).activeStrokes k2 = s.activeStrokes k2 :=
  ⟨startStroke_session_ne s k1 k2 p t (Ne.symm h),
   updateStroke_session_ne s k1 k2 p t (Ne.symm h),
   endStroke_session_ne s k1 k2 (Ne.symm h)⟩

/-- Witness for `sessions_independent`: drawing with "hand-left" leaves
the (empty) session entry of "hand-right" unchanged on a fresh system. -/
theorem sessions_independent_witness :
    (startStroke initialSystem "hand-left" ⟨0, 0, 0⟩ 0).activeStrokes "hand-right" =
      initialSystem.activeStrokes "hand-right" ∧
    (updateStroke initialSystem "hand-left" ⟨0, 0, 0⟩ 0).activeStrokes "hand-right" =
      initialSystem.activeStrokes "hand-right" ∧
    ((endStroke initialSystem "hand-left").2).activeStrokes "hand-right" =
      initialSystem.activeStrokes "hand-right" :=
  sessions_independent initialSystem "hand-left" "hand-right" ⟨0, 0, 0⟩ 0 (by decide)

/-- C9: `startStroke` on a key that may already own a session installs a
fresh session seeded from the new position (the map entry is replaced,
so exactly one session per key exists afterwards), and the prior
session's accumulated points are never committed: the committed list and
the redo stack are untouched. -/
theorem start_replaces_session (s : DrawingSystem) (k : String) (p : Vec3) (t : ℚ) :
    (startStroke s k p t).activeStrokes k =
      some { stroke := { points := [p, p], color := s.brushColor, size := s.brushSize,
                         mesh := some s.nextHandle }
             lastPosition := p
             smoothedPosition := p
             lastTime := t } ∧
    (startStroke s k p t).strokes = s.strokes ∧
    (startStroke s k p t).undoneStrokes = s.undoneStrokes := by
  refine ⟨?_, rfl, rfl⟩
  exact mapSet_self _ _ _

/-- C10: `updateStroke` on a key with no active session is a no-op on
the whole system, and `endStroke` on such a key returns null and leaves
the system unchanged. -/
theorem ops_without_session_noop (s : DrawingSystem) (k : String) (p : Vec3) (t : ℚ)
    (h : s.activeStrokes k = none) :
    updateStroke s k p t = s ∧ endStroke s k = (none, s) :=
  ⟨updateStroke_noSession s k p t h, endStroke_noSession s k h⟩

/-- Witness for `ops_without_session_noop`: the fresh system has no
session for "hand-left". -/
theorem ops_without_session_noop_witness :
    updateStroke initialSystem "hand-left" ⟨0, 0, 0⟩ 0 = initialSystem ∧
    endStroke initialSystem "hand-left" = (none, initialSystem) :=
  ops_without_session_noop initialSystem "hand-left" ⟨0, 0, 0⟩ 0 rfl
